import Mathlib

/-!
Verification of the crypto portfolio dashboard stores and list virtualization.

The development shallowly embeds:
* the portfolio store (`Position`, `calculateMetrics`, `addPosition`,
  `updatePosition`, `removePosition`, `updatePrices`, `optimisticTrade`);
* the market store (`MarketData`, `OrderBook`, `updatePrice`,
  `bulkUpdatePrices`, `updateOrderBook`);
* the virtualized positions list (`useVirtualization`, the filter/sort
  comparator and the sort-toggle handler).

JavaScript numbers are modelled as rationals.  Divisions whose divisor can be
zero produce IEEE special values in JavaScript, so every such division site
goes through `JsNum`, which keeps Infinity, -Infinity and NaN explicit.
Wall-clock fields (`lastUpdated`, timestamps) are omitted: they carry no
information about the properties below.
-/

/-- A JavaScript number that may be one of the IEEE special values produced by
dividing by zero: a finite rational, `Infinity`, `-Infinity` or `NaN`. -/
inductive JsNum where
  | fin (q : ℚ)
  | inf
  | ninf
  | nan
deriving DecidableEq, Repr

/-- `((num / den) * 100)` with JavaScript division semantics: a zero divisor
yields `Infinity`, `-Infinity` or `NaN` according to the sign of the
numerator. -/
def jsDivPct (num den : ℚ) : JsNum :=
  if den = 0 then
    if num = 0 then JsNum.nan
    else if 0 < num then JsNum.inf
    else JsNum.ninf
  else JsNum.fin (num / den * 100)

/-- JavaScript `>` on numbers: any comparison involving `NaN` is false. -/
def JsNum.jgt : JsNum → JsNum → Bool
  | .fin a, .fin b => decide (b < a)
  | .inf, .fin _ => true
  | .inf, .ninf => true
  | .fin _, .ninf => true
  | _, _ => false

/-- JavaScript `<` on numbers: any comparison involving `NaN` is false. -/
def JsNum.jlt : JsNum → JsNum → Bool
  | .fin a, .fin b => decide (a < b)
  | .ninf, .fin _ => true
  | .ninf, .inf => true
  | .fin _, .inf => true
  | _, _ => false

/-- JavaScript falsiness of a number: `0`, `-0` and `NaN` are falsy. -/
def JsNum.falsy : JsNum → Bool
  | .fin q => q == 0
  | .nan => true
  | _ => false

/-- `x || -Infinity` in JavaScript. -/
def JsNum.orNegInf (x : JsNum) : JsNum := if x.falsy then .ninf else x

/-- `x || Infinity` in JavaScript. -/
def JsNum.orPosInf (x : JsNum) : JsNum := if x.falsy then .inf else x

/-- The finite value of a `JsNum`, defaulting to `0` on the special values. -/
def JsNum.toRat : JsNum → ℚ
  | .fin q => q
  | _ => 0

/-- The `Position` record of the portfolio store (src part_005, lines 5-18).
`lastUpdated` is omitted (wall clock).  The two percentage fields are the only
fields the store ever computes by a division with a possibly-zero divisor, so
they are `JsNum`; every other numeric field stays rational. -/
structure Position where
  id : String
  symbol : String
  name : String
  amount : ℚ
  currentPrice : ℚ
  averageBuyPrice : ℚ
  totalValue : ℚ
  dailyChange : ℚ
  dailyChangePercent : JsNum
  totalGainLoss : ℚ
  totalGainLossPercent : JsNum
deriving DecidableEq, Repr

/-- The `PortfolioMetrics` record (src part_005, lines 32-41). -/
structure PortfolioMetrics where
  totalValue : ℚ
  dailyChange : ℚ
  dailyChangePercent : JsNum
  totalAssets : ℕ
  bestPerformer : String
  worstPerformer : String
  totalGainLoss : ℚ
  totalGainLossPercent : JsNum
deriving DecidableEq, Repr

/-- One step of the `bestPerformer` reduce in `calculateMetrics`:
`p.dailyChangePercent > (best?.dailyChangePercent || -Infinity) ? p : best`.
Inside the reduce `best` is always defined, so the optional chaining is just
`best.dailyChangePercent`. -/
def bestStep (best p : Position) : Position :=
  if JsNum.jgt p.dailyChangePercent (JsNum.orNegInf best.dailyChangePercent)
  then p else best

/-- One step of the `worstPerformer` reduce in `calculateMetrics`. -/
def worstStep (worst p : Position) : Position :=
  if JsNum.jlt p.dailyChangePercent (JsNum.orPosInf worst.dailyChangePercent)
  then p else worst

/-- `positions.reduce(bestStep, positions[0])`: JavaScript `reduce` with an
explicit initial value folds over the whole array; on the empty array it
returns the (undefined) initial value. -/
def bestPerformerPos (positions : List Position) : Option Position :=
  match positions with
  | [] => none
  | p0 :: _ => some (positions.foldl bestStep p0)

/-- `positions.reduce(worstStep, positions[0])`. -/
def worstPerformerPos (positions : List Position) : Option Position :=
  match positions with
  | [] => none
  | p0 :: _ => some (positions.foldl worstStep p0)

/-- `String.toUpperCase()` for the ASCII symbols of this dashboard,
character by character. -/
def jsToUpperCase (s : String) : String :=
  String.mk (s.data.map Char.toUpper)

/-- `performer?.symbol.toUpperCase() || 'N/A'`: an undefined performer or an
empty symbol yields the sentinel. -/
def symbolOrNA (o : Option Position) : String :=
  match o with
  | none => "N/A"
  | some p => if jsToUpperCase p.symbol = "" then "N/A" else jsToUpperCase p.symbol

/-- `calculateMetrics` (src part_005, lines 76-101). -/
def calculateMetrics (positions : List Position) : PortfolioMetrics :=
  let totalValue := positions.foldl (fun s p => s + p.totalValue) 0
  let dailyChange := positions.foldl (fun s p => s + p.dailyChange * p.amount) 0
  let totalGainLoss := positions.foldl (fun s p => s + p.totalGainLoss) 0
  { totalValue := totalValue
    dailyChange := dailyChange
    dailyChangePercent :=
      if 0 < totalValue then jsDivPct dailyChange totalValue else .fin 0
    totalAssets := positions.length
    bestPerformer := symbolOrNA (bestPerformerPos positions)
    worstPerformer := symbolOrNA (worstPerformerPos positions)
    totalGainLoss := totalGainLoss
    totalGainLossPercent :=
      if 0 < totalValue then jsDivPct totalGainLoss (totalValue - totalGainLoss)
      else .fin 0 }

/-- The slice of `PortfolioState` the position-management actions touch. -/
structure PortfolioState where
  positions : List Position
  metrics : PortfolioMetrics
deriving DecidableEq, Repr

/-- The store's initial state (src part_005, lines 107-119). -/
def initialState : PortfolioState :=
  { positions := []
    metrics :=
      { totalValue := 0, dailyChange := 0, dailyChangePercent := .fin 0
        totalAssets := 0, bestPerformer := "N/A", worstPerformer := "N/A"
        totalGainLoss := 0, totalGainLossPercent := .fin 0 } }

/-- `addPosition` (src part_005, lines 125-132): pushes the caller's record
verbatim and recomputes the aggregate metrics. -/
def addPosition (position : Position) (s : PortfolioState) : PortfolioState :=
  let ps := s.positions ++ [position]
  { positions := ps, metrics := calculateMetrics ps }

/-- A `Partial<Position>` as passed to `updatePosition`. -/
structure PositionPatch where
  id : Option String := none
  symbol : Option String := none
  name : Option String := none
  amount : Option ℚ := none
  currentPrice : Option ℚ := none
  averageBuyPrice : Option ℚ := none
  totalValue : Option ℚ := none
  dailyChange : Option ℚ := none
  dailyChangePercent : Option JsNum := none
  totalGainLoss : Option ℚ := none
  totalGainLossPercent : Option JsNum := none
deriving DecidableEq, Repr

/-- `Object.assign(position, updates)`. -/
def applyPatch (u : PositionPatch) (p : Position) : Position :=
  { id := u.id.getD p.id
    symbol := u.symbol.getD p.symbol
    name := u.name.getD p.name
    amount := u.amount.getD p.amount
    currentPrice := u.currentPrice.getD p.currentPrice
    averageBuyPrice := u.averageBuyPrice.getD p.averageBuyPrice
    totalValue := u.totalValue.getD p.totalValue
    dailyChange := u.dailyChange.getD p.dailyChange
    dailyChangePercent := u.dailyChangePercent.getD p.dailyChangePercent
    totalGainLoss := u.totalGainLoss.getD p.totalGainLoss
    totalGainLossPercent := u.totalGainLossPercent.getD p.totalGainLossPercent }

/-- Rewrites the first element satisfying `pred` (the element `findIndex`
finds) and leaves everything else alone. -/
def updateFirstWhere (pred : Position → Bool) (f : Position → Position) :
    List Position → List Position
  | [] => []
  | p :: ps => if pred p then f p :: ps else p :: updateFirstWhere pred f ps

/-- `updatePosition` (src part_005, lines 134-141): `Object.assign`s the patch
onto the position found by id; metrics are recomputed only when the id was
found. -/
def updatePosition (id : String) (u : PositionPatch) (s : PortfolioState) :
    PortfolioState :=
  if s.positions.any (fun p => p.id == id) then
    let ps := updateFirstWhere (fun p => p.id == id) (applyPatch u) s.positions
    { positions := ps, metrics := calculateMetrics ps }
  else s

/-- `removePosition` (src part_005, lines 143-147). -/
def removePosition (id : String) (s : PortfolioState) : PortfolioState :=
  let ps := s.positions.filter (fun p => !(p.id == id))
  { positions := ps, metrics := calculateMetrics ps }

/-- The body of the `forEach` in `updatePrices` (src part_005, lines 150-163).
The guard `if (priceUpdates[position.symbol])` is a truthiness test: an absent
symbol or a price of `0` skips the position entirely. -/
def applyPriceUpdate (priceUpdates : List (String × ℚ)) (position : Position) :
    Position :=
  match priceUpdates.lookup position.symbol with
  | none => position
  | some newPrice =>
    if newPrice = 0 then position
    else
      { position with
        currentPrice := newPrice
        totalValue := position.amount * newPrice
        dailyChange := newPrice - position.currentPrice
        dailyChangePercent :=
          jsDivPct (newPrice - position.currentPrice) position.currentPrice
        totalGainLoss :=
          position.amount * newPrice - position.amount * position.averageBuyPrice
        totalGainLossPercent :=
          jsDivPct (newPrice - position.averageBuyPrice) position.averageBuyPrice }

/-- `updatePrices` (src part_005, lines 149-166). -/
def updatePrices (priceUpdates : List (String × ℚ)) (s : PortfolioState) :
    PortfolioState :=
  let ps := s.positions.map (applyPriceUpdate priceUpdates)
  { positions := ps, metrics := calculateMetrics ps }

/-- The side of a simulated trade. -/
inductive TradeType where
  | buy
  | sell
deriving DecidableEq, Repr

/-- The argument of `optimisticTrade`. -/
structure Trade where
  symbol : String
  amount : ℚ
  price : ℚ
  type : TradeType
deriving DecidableEq, Repr

/-- The mutation `optimisticTrade` applies to the position found by symbol
(src part_005, lines 195-212).  In the buy branch the weighted-average divisor
`position.amount + trade.amount` can be zero, in which case JavaScript yields
`NaN`; rational division returns `0` there, so theorems about the buy branch
carry a positivity hypothesis on the new amount. -/
def applyTrade (trade : Trade) (position : Position) : Position :=
  match trade.type with
  | .buy =>
    let newAmount := position.amount + trade.amount
    let newAverageBuyPrice :=
      (position.amount * position.averageBuyPrice + trade.amount * trade.price) /
        newAmount
    { position with
      amount := newAmount
      averageBuyPrice := newAverageBuyPrice
      totalValue := newAmount * position.currentPrice
      totalGainLoss :=
        newAmount * position.currentPrice - newAmount * newAverageBuyPrice
      totalGainLossPercent :=
        jsDivPct (position.currentPrice - newAverageBuyPrice) newAverageBuyPrice }
  | .sell =>
    let newAmount := max 0 (position.amount - trade.amount)
    { position with
      amount := newAmount
      totalValue := newAmount * position.currentPrice
      totalGainLoss :=
        newAmount * position.currentPrice - newAmount * position.averageBuyPrice }

/-- `optimisticTrade` (src part_005, lines 193-216): rewrites the first
position with the traded symbol (if any) and recomputes metrics
unconditionally. -/
def optimisticTrade (trade : Trade) (s : PortfolioState) : PortfolioState :=
  let ps :=
    updateFirstWhere (fun p => p.symbol == trade.symbol) (applyTrade trade)
      s.positions
  { positions := ps, metrics := calculateMetrics ps }

/-- The `MarketData` record of the market store (src/store/market.ts,
lines 5-13); `lastUpdated` omitted.  `changePercent24h` is the one field
computed by an unguarded division, so it is a `JsNum`. -/
structure MarketData where
  symbol : String
  price : ℚ
  change24h : ℚ
  changePercent24h : JsNum
  volume24h : ℚ
  marketCap : ℚ
deriving DecidableEq, Repr

/-- One level of an order book (src/store/market.ts, lines 15-19). -/
structure OrderBookEntry where
  price : ℚ
  amount : ℚ
  total : ℚ
deriving DecidableEq, Repr

/-- An order book (src/store/market.ts, lines 21-26); `lastUpdated`
omitted. -/
structure OrderBook where
  symbol : String
  bids : List OrderBookEntry
  asks : List OrderBookEntry
deriving DecidableEq, Repr

/-- A `Partial<OrderBook>` as passed to `updateOrderBook`. -/
structure OrderBookPatch where
  symbol : Option String := none
  bids : Option (List OrderBookEntry) := none
  asks : Option (List OrderBookEntry) := none
deriving DecidableEq, Repr

/-- `record[key] = value` on a JavaScript object modelled as an association
list: replace the entry if the key exists, append otherwise. -/
def recSet {α : Type} : List (String × α) → String → α → List (String × α)
  | [], k, v => [(k, v)]
  | e :: rest, k, v => if e.1 = k then (k, v) :: rest else e :: recSet rest k v

/-- The slice of `MarketState` the price and order book actions touch. -/
structure MarketState where
  marketData : List (String × MarketData)
  orderBooks : List (String × OrderBook)
  priceUpdates : List (String × ℚ)
deriving DecidableEq, Repr

/-- The shared body of `updatePrice` and of one `bulkUpdatePrices` iteration
(src/store/market.ts, lines 99-110 and 113-123): record the raw price, and if
a `marketData` entry exists for the symbol (object truthiness — the price
value itself is never tested), overwrite it with the new price and the derived
24h change fields. -/
def applyMarketPrice (s : MarketState) (symbol : String) (price : ℚ) :
    MarketState :=
  let s1 := { s with priceUpdates := recSet s.priceUpdates symbol price }
  match s1.marketData.lookup symbol with
  | none => s1
  | some md =>
    { s1 with
      marketData :=
        recSet s1.marketData symbol
          { md with
            price := price
            change24h := price - md.price
            changePercent24h := jsDivPct (price - md.price) md.price } }

/-- `updatePrice` (src/store/market.ts, lines 99-110). -/
def updatePrice (symbol : String) (price : ℚ) (s : MarketState) : MarketState :=
  applyMarketPrice s symbol price

/-- `bulkUpdatePrices` (src/store/market.ts, lines 112-125): applies
`applyMarketPrice` to every entry of the update map in order. -/
def bulkUpdatePrices (updates : List (String × ℚ)) (s : MarketState) :
    MarketState :=
  updates.foldl (fun st e => applyMarketPrice st e.1 e.2) s

/-- `updateOrderBook` (src/store/market.ts, lines 88-97): spreads the existing
book and the supplied patch, then overrides `symbol`, `bids: []` and
`asks: []` — so every field of the stored book is forced and the patch is
ignored. -/
def updateOrderBook (symbol : String) (orderBook : OrderBookPatch)
    (s : MarketState) : MarketState :=
  { s with
    orderBooks :=
      recSet s.orderBooks symbol { symbol := symbol, bids := [], asks := [] } }

/-- The `Position` interface declared locally by
`VirtualizedPositionsList.tsx` (lines 18-31); all numeric fields are plain
numbers there, modelled as rationals. -/
structure VPosition where
  id : String
  symbol : String
  name : String
  amount : ℚ
  currentPrice : ℚ
  averageBuyPrice : ℚ
  totalValue : ℚ
  dailyChange : ℚ
  dailyChangePercent : ℚ
  totalGainLoss : ℚ
  totalGainLossPercent : ℚ
deriving DecidableEq, Repr

/-- `Array.prototype.slice(start, stop)` with the ECMAScript index clamping
(negative indices count from the end). -/
def jsSlice {α : Type} (xs : List α) (start stop : ℤ) : List α :=
  let len : ℤ := xs.length
  let s := if start < 0 then max (len + start) 0 else min start len
  let e := if stop < 0 then max (len + stop) 0 else min stop len
  (xs.drop s.toNat).take (e - s).toNat

/-- The values computed by the `useVirtualization` hook. -/
structure VirtualWindow where
  visibleItems : List VPosition
  totalHeight : ℚ
  offsetY : ℚ
  startIndex : ℤ
  endIndex : ℤ
deriving DecidableEq, Repr

/-- `useVirtualization` (VirtualizedPositionsList.tsx, lines 41-66):

    startIndex = floor(scrollTop / itemHeight)
    endIndex   = min(startIndex + ceil(containerHeight / itemHeight) + 1,
                     items.length - 1)
    visibleItems = items.slice(startIndex, endIndex + 1)
-/
def useVirtualization (items : List VPosition) (containerHeight : ℚ)
    (itemHeight : ℚ) (scrollTop : ℚ) : VirtualWindow :=
  let startIndex : ℤ := ⌊scrollTop / itemHeight⌋
  let endIndex : ℤ :=
    min (startIndex + ⌈containerHeight / itemHeight⌉ + 1)
      ((items.length : ℤ) - 1)
  { visibleItems := jsSlice items startIndex (endIndex + 1)
    totalHeight := (items.length : ℚ) * itemHeight
    offsetY := (startIndex : ℚ) * itemHeight
    startIndex := startIndex
    endIndex := endIndex }

/-- The three sort keys of the positions list. -/
inductive SortKey where
  | symbol
  | value
  | pnl
deriving DecidableEq, Repr

/-- The two sort directions. -/
inductive SortOrder where
  | asc
  | desc
deriving DecidableEq, Repr

/-- The `comparison` value computed by the sort callback
(VirtualizedPositionsList.tsx, lines 240-254); `localeCompare` is modelled as
the lexicographic comparison on strings, mapped to `-1/0/1`. -/
def comparison (sortBy : SortKey) (a b : VPosition) : ℚ :=
  match sortBy with
  | .symbol =>
    if a.symbol < b.symbol then -1 else if b.symbol < a.symbol then 1 else 0
  | .value => a.totalValue - b.totalValue
  | .pnl => a.totalGainLossPercent - b.totalGainLossPercent

/-- `sortOrder === 'desc' ? -comparison : comparison`
(VirtualizedPositionsList.tsx, line 256). -/
def jsCompare (sortBy : SortKey) (sortOrder : SortOrder) (a b : VPosition) :
    ℚ :=
  match sortOrder with
  | .asc => comparison sortBy a b
  | .desc => -(comparison sortBy a b)

/-- The ordering relation realized by `Array.prototype.sort` with the
component's comparator: `a` may precede `b` exactly when the comparator is
non-positive. -/
def sortRel (sortBy : SortKey) (sortOrder : SortOrder) (a b : VPosition) :
    Prop :=
  jsCompare sortBy sortOrder a b ≤ 0

instance sortRelDecidable (k : SortKey) (o : SortOrder) :
    DecidableRel (sortRel k o) :=
  fun a b => inferInstanceAs (Decidable (jsCompare k o a b ≤ 0))

/-- `filtered.sort(comparator)` (VirtualizedPositionsList.tsx, lines 239-257).
ECMAScript mandates a stable sort; with a consistent comparator the stable
sorted permutation is unique, so insertion sort realizes it. -/
def sortPositions (sortBy : SortKey) (sortOrder : SortOrder)
    (l : List VPosition) : List VPosition :=
  l.insertionSort (sortRel sortBy sortOrder)

/-- `setSortOrder(sortOrder === 'asc' ? 'desc' : 'asc')`. -/
def toggleOrder : SortOrder → SortOrder
  | .asc => .desc
  | .desc => .asc

/-- `handleSort` (VirtualizedPositionsList.tsx, lines 262-269): re-selecting
the active key toggles the direction, selecting a new key resets to
descending. -/
def handleSort (current : SortKey × SortOrder) (newSortBy : SortKey) :
    SortKey × SortOrder :=
  if current.1 = newSortBy then (current.1, toggleOrder current.2)
  else (newSortBy, .desc)

/-- The consistency rule of the spec: every stored position's `totalValue`
equals `amount * currentPrice`. -/
def PositionsInvariant (s : PortfolioState) : Prop :=
  ∀ p ∈ s.positions, p.totalValue = p.amount * p.currentPrice

/-- Every stored order book has empty `bids` and `asks`. -/
def BooksEmptyInvariant (s : MarketState) : Prop :=
  ∀ e ∈ s.orderBooks, e.2.bids = [] ∧ e.2.asks = []

/-- The finite value of a position's `dailyChangePercent` (its JavaScript
number when it is finite). -/
def dcpKey (p : Position) : ℚ := p.dailyChangePercent.toRat

/-- The position's `dailyChangePercent` is a finite nonzero number — the
regime in which the `|| -Infinity` fallback of the performer reduce is
inert. -/
def finiteNonzeroDCP (p : Position) : Bool :=
  match p.dailyChangePercent with
  | .fin q => q != 0
  | _ => false

/-- Modelled from the spec: `res` is the first position in list order
attaining the maximum of `key` over `l` (the tie-break the spec prescribes
for best-performer selection). -/
def IsFirstMaxBy (key : Position → ℚ) (l : List Position) (res : Position) :
    Prop :=
  ∃ l1 l2, l = l1 ++ res :: l2 ∧ (∀ q ∈ l1, key q < key res) ∧
    ∀ q ∈ l, key q ≤ key res

/-- Modelled from the spec: `res` is the first position in list order
attaining the minimum of `key` over `l`. -/
def IsFirstMinBy (key : Position → ℚ) (l : List Position) (res : Position) :
    Prop :=
  ∃ l1 l2, l = l1 ++ res :: l2 ∧ (∀ q ∈ l1, key res < key q) ∧
    ∀ q ∈ l, key res ≤ key q

/-- A position whose stored `totalValue` disagrees with
`amount * currentPrice` (7 vs 2 * 3 = 6). -/
def C1badPosition : Position :=
  { id := "x", symbol := "BTC", name := "Bitcoin", amount := 2
    currentPrice := 3, averageBuyPrice := 1, totalValue := 7
    dailyChange := 0, dailyChangePercent := .fin 0
    totalGainLoss := 0, totalGainLossPercent := .fin 0 }

/-- The spec's scenario holding:
`{symbol: "BTC", amount: 2, currentPrice: 50000, averageBuyPrice: 40000}`. -/
def scenarioBTC : Position :=
  { id := "1", symbol := "BTC", name := "Bitcoin", amount := 2
    currentPrice := 50000, averageBuyPrice := 40000, totalValue := 100000
    dailyChange := 0, dailyChangePercent := .fin 0
    totalGainLoss := 20000, totalGainLossPercent := .fin 25 }

/-- A store state holding exactly the scenario position. -/
def scenarioState : PortfolioState :=
  { positions := [scenarioBTC], metrics := calculateMetrics [scenarioBTC] }

/-- A position whose old `currentPrice` and `averageBuyPrice` are both 0. -/
def C4zeroPos : Position :=
  { id := "z", symbol := "BTC", name := "Bitcoin", amount := 1
    currentPrice := 0, averageBuyPrice := 0, totalValue := 0
    dailyChange := 0, dailyChangePercent := .fin 0
    totalGainLoss := 0, totalGainLossPercent := .fin 0 }

/-- A market-data entry for BTC at price 100. -/
def C9md : MarketData :=
  { symbol := "BTC", price := 100, change24h := 0
    changePercent24h := .fin 0, volume24h := 0, marketCap := 0 }

/-- A market state whose `marketData` holds the BTC entry. -/
def C9state : MarketState :=
  { marketData := [("BTC", C9md)], orderBooks := [], priceUpdates := [] }

/-- A position with `dailyChangePercent` 0: the unique maximizer of the
daily change among `[C6posA, C6posB]`. -/
def C6posA : Position :=
  { id := "a", symbol := "a", name := "A", amount := 1
    currentPrice := 1, averageBuyPrice := 1, totalValue := 1
    dailyChange := 0, dailyChangePercent := .fin 0
    totalGainLoss := 0, totalGainLossPercent := .fin 0 }

/-- A position with `dailyChangePercent` -1. -/
def C6posB : Position :=
  { id := "b", symbol := "b", name := "B", amount := 1
    currentPrice := 1, averageBuyPrice := 1, totalValue := 1
    dailyChange := 0, dailyChangePercent := .fin (-1)
    totalGainLoss := 0, totalGainLossPercent := .fin 0 }

/-- A position with finite nonzero `dailyChangePercent` 5. -/
def C6posX : Position :=
  { id := "x", symbol := "x", name := "X", amount := 1
    currentPrice := 1, averageBuyPrice := 1, totalValue := 1
    dailyChange := 0, dailyChangePercent := .fin 5
    totalGainLoss := 0, totalGainLossPercent := .fin 0 }

/-- A position with finite nonzero `dailyChangePercent` -3. -/
def C6posY : Position :=
  { id := "y", symbol := "y", name := "Y", amount := 1
    currentPrice := 1, averageBuyPrice := 1, totalValue := 1
    dailyChange := 0, dailyChangePercent := .fin (-3)
    totalGainLoss := 0, totalGainLossPercent := .fin 0 }

/-- A plain list item for virtualization and sorting fixtures. -/
def mkVPos (i : ℕ) : VPosition :=
  { id := toString i, symbol := "btc", name := "Bitcoin", amount := 1
    currentPrice := 1, averageBuyPrice := 1, totalValue := 1
    dailyChange := 0, dailyChangePercent := 0
    totalGainLoss := 0, totalGainLossPercent := 0 }

/-- Ten list items, as in the spec's "10 entries" scenario. -/
def C3items : List VPosition := (List.range 10).map mkVPos

/-- Two positions with the same `totalValue` (a sorting tie). -/
def C8posA : VPosition := { mkVPos 1 with id := "a", totalValue := 5 }

/-- Second half of the sorting tie. -/
def C8posB : VPosition := { mkVPos 2 with id := "b", totalValue := 5 }

/-- A position with a distinct `totalValue`, for tie-free sorting. -/
def C8posC : VPosition := { mkVPos 3 with id := "c", totalValue := 7 }

lemma lookup_recSet_self {α : Type} (m : List (String × α)) (k : String)
    (v : α) : (recSet m k v).lookup k = some v := by
  induction m with
  | nil => simp [recSet, List.lookup]
  | cons e rest ih =>
    by_cases h : e.1 = k
    · simp [recSet, h, List.lookup]
    · have hb : (k == e.1) = false := by
        simpa [beq_eq_false_iff_ne] using Ne.symm h
      simp only [recSet, if_neg h, List.lookup, hb]
      exact ih

lemma mem_recSet {α : Type} {m : List (String × α)} {k : String} {v : α}
    {e : String × α} (h : e ∈ recSet m k v) : e ∈ m ∨ e = (k, v) := by
  induction m with
  | nil => simpa [recSet] using h
  | cons e0 rest ih =>
    by_cases h0 : e0.1 = k
    · rcases (by simpa [recSet, h0] using h) with h1 | h1
      · exact Or.inr h1
      · exact Or.inl (List.mem_cons_of_mem _ h1)
    · rcases (by simpa [recSet, h0] using h) with h1 | h1
      · exact Or.inl (by simp [h1])
      · rcases ih h1 with h2 | h2
        · exact Or.inl (List.mem_cons_of_mem _ h2)
        · exact Or.inr h2

lemma mem_updateFirstWhere {pred : Position → Bool} {f : Position → Position}
    {l : List Position} {x : Position} (h : x ∈ updateFirstWhere pred f l) :
    x ∈ l ∨ ∃ p ∈ l, x = f p := by
  induction l with
  | nil => simpa [updateFirstWhere] using h
  | cons p ps ih =>
    by_cases hp : pred p
    · rcases (by simpa [updateFirstWhere, hp] using h) with h1 | h1
      · exact Or.inr ⟨p, List.mem_cons_self p ps, h1⟩
      · exact Or.inl (List.mem_cons_of_mem _ h1)
    · rcases (by simpa [updateFirstWhere, hp] using h) with h1 | h1
      · exact Or.inl (by simp [h1])
      · rcases ih h1 with h2 | h2
        · exact Or.inl (List.mem_cons_of_mem _ h2)
        · rcases h2 with ⟨q, hq, hx⟩
          exact Or.inr ⟨q, List.mem_cons_of_mem _ hq, hx⟩

lemma applyTrade_totalValue (t : Trade) (p : Position) :
    (applyTrade t p).totalValue =
      (applyTrade t p).amount * (applyTrade t p).currentPrice := by
  cases h : t.type <;> simp [applyTrade, h]

lemma applyPriceUpdate_totalValue (upd : List (String × ℚ)) (p : Position)
    (h : p.totalValue = p.amount * p.currentPrice) :
    (applyPriceUpdate upd p).totalValue =
      (applyPriceUpdate upd p).amount * (applyPriceUpdate upd p).currentPrice := by
  unfold applyPriceUpdate
  cases hl : upd.lookup p.symbol with
  | none => simpa using h
  | some np =>
    by_cases hz : np = 0
    · simpa [hz] using h
    · simp [hz]

lemma positionsInvariant_initial : PositionsInvariant initialState := by
  intro p hp
  simp [initialState] at hp

/-- C5: for the empty positions list, `calculateMetrics` returns the zeroed
aggregate with the sentinel `"N/A"` labels. -/
theorem calculateMetrics_empty_zeroed :
    calculateMetrics [] =
      { totalValue := 0, dailyChange := 0, dailyChangePercent := .fin 0
        totalAssets := 0, bestPerformer := "N/A", worstPerformer := "N/A"
        totalGainLoss := 0, totalGainLossPercent := .fin 0 } := by
  rfl

/-- C2 (amended): after `updatePrices` with a map binding `pos.symbol` to a
NONZERO price `p`, the position's `currentPrice` is `p` and its `totalValue`
is `amount * p`; the spec's BTC scenario at price 60000 yields totalValue
120000, totalGainLoss 40000 and totalGainLossPercent 50.  (A zero price is
skipped by the truthiness guard, so the claim's unrestricted quantification
over prices fails; see the counterexample.) -/
theorem updatePrices_sets_price_amended :
    (∀ (upd : List (String × ℚ)) (pos : Position) (p : ℚ),
        upd.lookup pos.symbol = some p → p ≠ 0 →
        (applyPriceUpdate upd pos).currentPrice = p ∧
        (applyPriceUpdate upd pos).totalValue = pos.amount * p) ∧
    (updatePrices [("BTC", 60000)] scenarioState).positions =
      [{ scenarioBTC with
          currentPrice := 60000, totalValue := 120000, dailyChange := 10000
          dailyChangePercent := .fin 20, totalGainLoss := 40000
          totalGainLossPercent := .fin 50 }] := by
  constructor
  · intro upd pos p hl hp
    constructor <;> simp [applyPriceUpdate, hl, hp]
  · simp only [updatePrices, scenarioState, List.map_cons, List.map_nil]
    norm_num [applyPriceUpdate, scenarioBTC, List.lookup, jsDivPct]

/-- C2 witness: the amended per-position law evaluated on the scenario
holding at price 60000. -/
theorem updatePrices_sets_price_amended_witness :
    (applyPriceUpdate [("BTC", 60000)] scenarioBTC).currentPrice = 60000 ∧
    (applyPriceUpdate [("BTC", 60000)] scenarioBTC).totalValue =
      scenarioBTC.amount * 60000 :=
  updatePrices_sets_price_amended.1 [("BTC", 60000)] scenarioBTC 60000
    (by decide) (by norm_num)

/-- C2 counterexample: at price `p = 0` the claim fails — the update is
skipped and `currentPrice` stays 50000 instead of becoming 0. -/
theorem updatePrices_zero_price_ignored :
    ((updatePrices [("BTC", 0)] scenarioState).positions.head?.map
        Position.currentPrice) = some 50000 ∧ (50000 : ℚ) ≠ 0 := by
  constructor
  · decide
  · norm_num

/-- C1 (amended): `updatePrices`, `optimisticTrade` and `removePosition`
preserve the invariant `totalValue = amount * currentPrice`; `addPosition`
preserves it only when the pushed record itself satisfies it, because the
store copies the caller's fields verbatim (and `updatePosition` likewise
assigns caller fields without recomputation).  The unrestricted claim fails:
see the counterexample. -/
theorem positions_invariant_amended :
    (∀ (upd : List (String × ℚ)) (s : PortfolioState),
        PositionsInvariant s → PositionsInvariant (updatePrices upd s)) ∧
    (∀ (t : Trade) (s : PortfolioState),
        PositionsInvariant s → PositionsInvariant (optimisticTrade t s)) ∧
    (∀ (id : String) (s : PortfolioState),
        PositionsInvariant s → PositionsInvariant (removePosition id s)) ∧
    (∀ (p : Position) (s : PortfolioState),
        PositionsInvariant s → p.totalValue = p.amount * p.currentPrice →
        PositionsInvariant (addPosition p s)) := by
  refine ⟨?_, ?_, ?_, ?_⟩
  · intro upd s h q hq
    simp only [updatePrices, List.mem_map] at hq
    rcases hq with ⟨p, hp, rfl⟩
    exact applyPriceUpdate_totalValue upd p (h p hp)
  · intro t s h q hq
    simp only [optimisticTrade] at hq
    rcases mem_updateFirstWhere hq with h1 | ⟨p, hp, rfl⟩
    · exact h q h1
    · exact applyTrade_totalValue t p
  · intro id s h q hq
    simp only [removePosition, List.mem_filter] at hq
    exact h q hq.1
  · intro p s h hp q hq
    simp only [addPosition, List.mem_append, List.mem_singleton] at hq
    rcases hq with h1 | rfl
    · exact h q h1
    · exact hp

/-- C1 witness: preservation under `updatePrices` evaluated from the initial
state. -/
theorem positions_invariant_amended_witness :
    PositionsInvariant (updatePrices [("BTC", 2)] initialState) :=
  positions_invariant_amended.1 [("BTC", 2)] initialState
    positionsInvariant_initial

/-- C1 counterexample: `addPosition` stores a position whose `totalValue` (7)
differs from `amount * currentPrice` (6), so the invariant does not hold
after every store operation. -/
theorem addPosition_breaks_invariant :
    ¬ PositionsInvariant (addPosition C1badPosition initialState) := by
  intro h
  have hm : C1badPosition ∈ (addPosition C1badPosition initialState).positions := by
    simp [addPosition, initialState]
  have hbad := h C1badPosition hm
  norm_num [C1badPosition] at hbad

/-- C4 (amended): `calculateMetrics` does guard its percentage divisions on
`totalValue > 0` (a non-positive total yields 0% for both aggregate
percentages), but `updatePrices` divides with no guard: applying a nonzero
positive price to a position whose old `currentPrice` is 0 yields
`dailyChangePercent = Infinity`, and a zero `averageBuyPrice` yields
`totalGainLossPercent = Infinity` — not 0%. -/
theorem division_guard_amended :
    (∀ (upd : List (String × ℚ)) (pos : Position) (p : ℚ),
        upd.lookup pos.symbol = some p → p ≠ 0 →
        (pos.currentPrice = 0 → 0 < p →
          (applyPriceUpdate upd pos).dailyChangePercent = JsNum.inf) ∧
        (pos.averageBuyPrice = 0 → 0 < p →
          (applyPriceUpdate upd pos).totalGainLossPercent = JsNum.inf)) ∧
    (∀ positions : List Position,
        (calculateMetrics positions).totalValue ≤ 0 →
        (calculateMetrics positions).dailyChangePercent = .fin 0 ∧
        (calculateMetrics positions).totalGainLossPercent = .fin 0) := by
  constructor
  · intro upd pos p hl hp
    constructor
    · intro h0 hpos
      simp [applyPriceUpdate, hl, hp, jsDivPct, h0, hp, hpos]
    · intro h0 hpos
      simp [applyPriceUpdate, hl, hp, jsDivPct, h0, hp, hpos]
  · intro positions h
    simp only [calculateMetrics] at h ⊢
    rw [if_neg (not_lt.2 h), if_neg (not_lt.2 h)]
    exact ⟨rfl, rfl⟩

/-- C4 witness: both halves of the amended statement evaluated concretely —
the zero-base position at new price 10, and the empty list for the guarded
aggregate. -/
theorem division_guard_amended_witness :
    ((applyPriceUpdate [("BTC", 10)] C4zeroPos).dailyChangePercent =
        JsNum.inf ∧
      (applyPriceUpdate [("BTC", 10)] C4zeroPos).totalGainLossPercent =
        JsNum.inf) ∧
    ((calculateMetrics []).dailyChangePercent = .fin 0 ∧
      (calculateMetrics []).totalGainLossPercent = .fin 0) := by
  have h1 := division_guard_amended.1 [("BTC", 10)] C4zeroPos 10
    (by decide) (by norm_num)
  have h2 := division_guard_amended.2 [] (by norm_num [calculateMetrics])
  exact ⟨⟨h1.1 rfl (by norm_num), h1.2 rfl (by norm_num)⟩, h2⟩

/-- C4 counterexample: the claim says updating a position whose old
`currentPrice` (resp. `averageBuyPrice`) is 0 yields 0 percent, never
Infinity; the code yields `Infinity` for both percentages. -/
theorem updatePrices_zero_base_infinity :
    (applyPriceUpdate [("BTC", 10)] C4zeroPos).dailyChangePercent ≠
        JsNum.fin 0 ∧
    (applyPriceUpdate [("BTC", 10)] C4zeroPos).dailyChangePercent =
        JsNum.inf ∧
    (applyPriceUpdate [("BTC", 10)] C4zeroPos).totalGainLossPercent =
        JsNum.inf := by
  have h1 : (applyPriceUpdate [("BTC", 10)] C4zeroPos).dailyChangePercent =
      JsNum.inf := by
    norm_num [applyPriceUpdate, C4zeroPos, List.lookup, jsDivPct]
  have h2 : (applyPriceUpdate [("BTC", 10)] C4zeroPos).totalGainLossPercent =
      JsNum.inf := by
    norm_num [applyPriceUpdate, C4zeroPos, List.lookup, jsDivPct]
  refine ⟨?_, h1, h2⟩
  rw [h1]
  intro hfalse
  exact JsNum.noConfusion hfalse

/-- C7: a simulated sell leaves `averageBuyPrice` (and every
non-quantity-derived field) unchanged, updating only `amount`, `totalValue`
and `totalGainLoss`; a simulated buy sets `averageBuyPrice` to the weighted
average `(oldAmount * oldAvg + tradeAmount * tradePrice) /
(oldAmount + tradeAmount)`. -/
theorem optimisticTrade_averageBuyPrice :
    ∀ (t : Trade) (pos : Position),
      (t.type = .sell →
        (applyTrade t pos).averageBuyPrice = pos.averageBuyPrice ∧
        (applyTrade t pos).id = pos.id ∧
        (applyTrade t pos).symbol = pos.symbol ∧
        (applyTrade t pos).name = pos.name ∧
        (applyTrade t pos).currentPrice = pos.currentPrice ∧
        (applyTrade t pos).dailyChange = pos.dailyChange ∧
        (applyTrade t pos).dailyChangePercent = pos.dailyChangePercent ∧
        (applyTrade t pos).totalGainLossPercent = pos.totalGainLossPercent ∧
        (applyTrade t pos).amount = max 0 (pos.amount - t.amount) ∧
        (applyTrade t pos).totalValue =
          (applyTrade t pos).amount * pos.currentPrice ∧
        (applyTrade t pos).totalGainLoss =
          (applyTrade t pos).amount * pos.currentPrice -
            (applyTrade t pos).amount * pos.averageBuyPrice) ∧
      (t.type = .buy → pos.amount + t.amount ≠ 0 →
        (applyTrade t pos).averageBuyPrice =
          (pos.amount * pos.averageBuyPrice + t.amount * t.price) /
            (pos.amount + t.amount)) := by
  intro t pos
  constructor
  · intro h
    simp [applyTrade, h]
  · intro h _
    simp [applyTrade, h]

/-- C7 witness: the sell and buy laws evaluated on the scenario holding with
a trade of 1 unit at price 30000. -/
theorem optimisticTrade_averageBuyPrice_witness :
    (applyTrade { symbol := "BTC", amount := 1, price := 30000, type := .sell }
        scenarioBTC).averageBuyPrice = scenarioBTC.averageBuyPrice ∧
    (applyTrade { symbol := "BTC", amount := 1, price := 30000, type := .buy }
        scenarioBTC).averageBuyPrice =
      (scenarioBTC.amount * scenarioBTC.averageBuyPrice + 1 * 30000) /
        (scenarioBTC.amount + 1) :=
  ⟨((optimisticTrade_averageBuyPrice
      { symbol := "BTC", amount := 1, price := 30000, type := .sell }
      scenarioBTC).1 rfl).1,
    (optimisticTrade_averageBuyPrice
      { symbol := "BTC", amount := 1, price := 30000, type := .buy }
      scenarioBTC).2 rfl (by norm_num [scenarioBTC])⟩

/-- C9 (amended): the portfolio store's `updatePrices` skips a position whose
symbol maps to price 0 — the position is returned entirely unchanged — but
the market store's `bulkUpdatePrices` does NOT skip a zero price: its guard
only tests that a `marketData` entry exists, so the zero price is recorded in
`priceUpdates` and applied to the existing entry. -/
theorem updatePrices_zero_skip_amended :
    (∀ (upd : List (String × ℚ)) (pos : Position),
        upd.lookup pos.symbol = some 0 → applyPriceUpdate upd pos = pos) ∧
    (∀ (s : MarketState) (sym : String) (md : MarketData),
        s.marketData.lookup sym = some md →
        (applyMarketPrice s sym 0).marketData.lookup sym =
          some { md with
                 price := 0, change24h := 0 - md.price
                 changePercent24h := jsDivPct (0 - md.price) md.price } ∧
        (applyMarketPrice s sym 0).priceUpdates.lookup sym = some 0) := by
  constructor
  · intro upd pos h
    simp [applyPriceUpdate, h]
  · intro s sym md h
    constructor
    · simp only [applyMarketPrice, h]
      exact lookup_recSet_self _ _ _
    · simp only [applyMarketPrice, h]
      exact lookup_recSet_self _ _ _

/-- C9 witness: the zero-price skip evaluated on the scenario holding, and
the bulk-update behavior evaluated on the concrete BTC market state. -/
theorem updatePrices_zero_skip_amended_witness :
    applyPriceUpdate [("BTC", 0)] scenarioBTC = scenarioBTC ∧
    (applyMarketPrice C9state "BTC" 0).marketData.lookup "BTC" =
      some { C9md with
             price := 0, change24h := 0 - C9md.price
             changePercent24h := jsDivPct (0 - C9md.price) C9md.price } :=
  ⟨updatePrices_zero_skip_amended.1 [("BTC", 0)] scenarioBTC (by decide),
    (updatePrices_zero_skip_amended.2 C9state "BTC" C9md (by decide)).1⟩

/-- C9 counterexample: `bulkUpdatePrices` with an explicit zero price does
not leave the market entry unchanged — price becomes 0 (was 100) and the
derived 24h fields change too. -/
theorem bulkUpdatePrices_zero_not_skipped :
    (bulkUpdatePrices [("BTC", 0)] C9state).marketData.lookup "BTC" =
      some { C9md with
             price := 0, change24h := -100, changePercent24h := .fin (-100) } ∧
    (bulkUpdatePrices [("BTC", 0)] C9state).marketData.lookup "BTC" ≠
      some C9md := by
  have h : (bulkUpdatePrices [("BTC", 0)] C9state).marketData.lookup "BTC" =
      some { C9md with
             price := 0, change24h := -100, changePercent24h := .fin (-100) } := by
    show (applyMarketPrice C9state "BTC" 0).marketData.lookup "BTC" = _
    norm_num [applyMarketPrice, C9state, C9md, List.lookup, recSet, jsDivPct]
  refine ⟨h, ?_⟩
  rw [h]
  simp [C9md]

/-- C10: after every `updateOrderBook(symbol, patch)` the stored book for
`symbol` is exactly `{symbol, bids: [], asks: []}` regardless of the bids and
asks supplied in the patch, and the all-books-empty invariant is preserved. -/
theorem updateOrderBook_empties_books :
    ∀ (s : MarketState) (sym : String) (patch : OrderBookPatch),
      (updateOrderBook sym patch s).orderBooks.lookup sym =
        some { symbol := sym, bids := [], asks := [] } ∧
      (BooksEmptyInvariant s → BooksEmptyInvariant (updateOrderBook sym patch s)) := by
  intro s sym patch
  constructor
  · exact lookup_recSet_self _ _ _
  · intro h e he
    simp only [updateOrderBook] at he
    rcases mem_recSet he with h1 | rfl
    · exact h e h1
    · exact ⟨rfl, rfl⟩

/-- C10 witness: evaluated on the concrete BTC market state with a patch
carrying a nonempty bid. -/
theorem updateOrderBook_empties_books_witness :
    (updateOrderBook "BTC"
        { bids := some [{ price := 1, amount := 1, total := 1 }] }
        C9state).orderBooks.lookup "BTC" =
      some { symbol := "BTC", bids := [], asks := [] } ∧
    BooksEmptyInvariant
      (updateOrderBook "BTC"
        { bids := some [{ price := 1, amount := 1, total := 1 }] } C9state) :=
  ⟨(updateOrderBook_empties_books C9state "BTC" _).1,
    (updateOrderBook_empties_books C9state "BTC" _).2
      (by intro e he; simp [C9state] at he)⟩

/-- C3 (amended): under nonnegative scroll offset and container height and a
positive row height, the virtualization renders at most
`ceil(containerHeight/rowHeight) + 2` rows, for every item list.  (The hook
slices `items.slice(startIndex, endIndex + 1)` with
`endIndex = startIndex + ceil(containerHeight/itemHeight) + 1`, an inclusive
overscan row, so the window holds up to ceil + 2 rows — one more than the
claimed ceil + 1; see the counterexample.) -/
theorem virtualization_window_bound_amended :
    ∀ (items : List VPosition) (containerHeight itemHeight scrollTop : ℚ),
      0 ≤ scrollTop → 0 < itemHeight → 0 ≤ containerHeight →
      (useVirtualization items containerHeight itemHeight
          scrollTop).visibleItems.length ≤
        (⌈containerHeight / itemHeight⌉).toNat + 2 := by
  intro items ch ih st hst hih hch
  have hb0 : 0 ≤ ⌊st / ih⌋ := Int.floor_nonneg.2 (div_nonneg hst hih.le)
  have hc0 : 0 ≤ ⌈ch / ih⌉ := Int.ceil_nonneg (div_nonneg hch hih.le)
  simp only [useVirtualization, jsSlice]
  set b := ⌊st / ih⌋ with hb
  set c := ⌈ch / ih⌉ with hc
  have hstop : ¬ (min (b + c + 1) ((items.length : ℤ) - 1) + 1 < 0) := by
    omega
  rw [if_neg (not_lt.2 hb0), if_neg hstop]
  simp only [List.length_take, List.length_drop]
  omega

/-- C3 witness: the bound evaluated on the ten-item list with a 56px window
and 56px rows at scroll offset 0. -/
theorem virtualization_window_bound_amended_witness :
    (useVirtualization C3items 56 56 0).visibleItems.length ≤
      (⌈(56 : ℚ) / 56⌉).toNat + 2 :=
  virtualization_window_bound_amended C3items 56 56 0 (by norm_num)
    (by norm_num) (by norm_num)

/-- C3 counterexample: with 10 items, container height 56 and row height 56
at scroll offset 0 the window holds 3 rows, exceeding the claimed bound
`ceil(56/56) + 1 = 2`. -/
theorem virtualization_window_exceeds_claimed_bound :
    (useVirtualization C3items 56 56 0).visibleItems.length = 3 ∧
    (⌈(56 : ℚ) / 56⌉ + 1 : ℤ) = 2 := by
  have hfloor : ⌊(0 : ℚ) / 56⌋ = 0 := by norm_num
  have hceil : ⌈(56 : ℚ) / 56⌉ = 1 := by norm_num
  constructor
  · simp only [useVirtualization, jsSlice, hfloor, hceil, C3items,
      List.length_map, List.length_range]
    norm_num
    decide
  · rw [hceil]
    decide

lemma finiteNonzeroDCP_spec {p : Position} (h : finiteNonzeroDCP p = true) :
    ∃ q, p.dailyChangePercent = .fin q ∧ q ≠ 0 := by
  unfold finiteNonzeroDCP at h
  cases hv : p.dailyChangePercent with
  | fin q =>
    refine ⟨q, rfl, ?_⟩
    rw [hv] at h
    simpa using h
  | inf => rw [hv] at h; simp at h
  | ninf => rw [hv] at h; simp at h
  | nan => rw [hv] at h; simp at h

lemma bestStep_eq {b p : Position} (hb : finiteNonzeroDCP b = true)
    (hp : finiteNonzeroDCP p = true) :
    bestStep b p = if dcpKey b < dcpKey p then p else b := by
  obtain ⟨qb, hbv, hb0⟩ := finiteNonzeroDCP_spec hb
  obtain ⟨qp, hpv, hp0⟩ := finiteNonzeroDCP_spec hp
  simp [bestStep, hbv, hpv, JsNum.orNegInf, JsNum.falsy, hb0, JsNum.jgt,
    dcpKey, JsNum.toRat]

lemma worstStep_eq {b p : Position} (hb : finiteNonzeroDCP b = true)
    (hp : finiteNonzeroDCP p = true) :
    worstStep b p = if dcpKey p < dcpKey b then p else b := by
  obtain ⟨qb, hbv, hb0⟩ := finiteNonzeroDCP_spec hb
  obtain ⟨qp, hpv, hp0⟩ := finiteNonzeroDCP_spec hp
  simp [worstStep, hbv, hpv, JsNum.orPosInf, JsNum.falsy, hb0, JsNum.jlt,
    dcpKey, JsNum.toRat]

lemma foldl_bestStep_eq {l : List Position} :
    ∀ {b : Position}, finiteNonzeroDCP b = true →
      (∀ p ∈ l, finiteNonzeroDCP p = true) →
      l.foldl bestStep b =
        l.foldl (fun x p => if dcpKey x < dcpKey p then p else x) b := by
  induction l with
  | nil => intro b _ _; rfl
  | cons p ps ih =>
    intro b hb hl
    have hp := hl p (List.mem_cons_self p ps)
    have hstep : bestStep b p = if dcpKey b < dcpKey p then p else b :=
      bestStep_eq hb hp
    have hnext : finiteNonzeroDCP (if dcpKey b < dcpKey p then p else b) =
        true := by
      split <;> assumption
    simp only [List.foldl_cons]
    rw [hstep]
    exact ih hnext (fun q hq => hl q (List.mem_cons_of_mem p hq))

lemma foldl_worstStep_eq {l : List Position} :
    ∀ {b : Position}, finiteNonzeroDCP b = true →
      (∀ p ∈ l, finiteNonzeroDCP p = true) →
      l.foldl worstStep b =
        l.foldl (fun x p => if dcpKey p < dcpKey x then p else x) b := by
  induction l with
  | nil => intro b _ _; rfl
  | cons p ps ih =>
    intro b hb hl
    have hp := hl p (List.mem_cons_self p ps)
    have hstep : worstStep b p = if dcpKey p < dcpKey b then p else b :=
      worstStep_eq hb hp
    have hnext : finiteNonzeroDCP (if dcpKey p < dcpKey b then p else b) =
        true := by
      split <;> assumption
    simp only [List.foldl_cons]
    rw [hstep]
    exact ih hnext (fun q hq => hl q (List.mem_cons_of_mem p hq))

lemma foldl_max_spec (key : Position → ℚ) :
    ∀ (l : List Position) (b r : Position),
      l.foldl (fun x p => if key x < key p then p else x) b = r →
      (r = b ∧ ∀ q ∈ l, key q ≤ key b) ∨
      (∃ l1 l2, l = l1 ++ r :: l2 ∧ key b < key r ∧
        (∀ q ∈ l1, key q < key r) ∧ ∀ q ∈ l2, key q ≤ key r) := by
  intro l
  induction l with
  | nil =>
    intro b r h
    exact Or.inl ⟨h.symm, by simp⟩
  | cons p ps ih =>
    intro b r h
    simp only [List.foldl_cons] at h
    by_cases hbp : key b < key p
    · rw [if_pos hbp] at h
      rcases ih p r h with ⟨hr, hall⟩ | ⟨l1, l2, hsplit, hlt, hpre, hsuf⟩
      · subst hr
        exact Or.inr ⟨[], ps, by simp, hbp, by simp, hall⟩
      · refine Or.inr ⟨p :: l1, l2, by rw [hsplit]; rfl,
          lt_trans hbp hlt, ?_, hsuf⟩
        intro q hq
        rcases List.mem_cons.1 hq with rfl | hq2
        · exact hlt
        · exact hpre q hq2
    · rw [if_neg hbp] at h
      rcases ih b r h with ⟨hr, hall⟩ | ⟨l1, l2, hsplit, hlt, hpre, hsuf⟩
      · refine Or.inl ⟨hr, ?_⟩
        intro q hq
        rcases List.mem_cons.1 hq with rfl | hq2
        · exact not_lt.1 hbp
        · exact hall q hq2
      · refine Or.inr ⟨p :: l1, l2, by rw [hsplit]; rfl, hlt, ?_, hsuf⟩
        intro q hq
        rcases List.mem_cons.1 hq with rfl | hq2
        · exact lt_of_le_of_lt (not_lt.1 hbp) hlt
        · exact hpre q hq2

lemma foldl_min_spec (key : Position → ℚ) :
    ∀ (l : List Position) (b r : Position),
      l.foldl (fun x p => if key p < key x then p else x) b = r →
      (r = b ∧ ∀ q ∈ l, key b ≤ key q) ∨
      (∃ l1 l2, l = l1 ++ r :: l2 ∧ key r < key b ∧
        (∀ q ∈ l1, key r < key q) ∧ ∀ q ∈ l2, key r ≤ key q) := by
  intro l
  induction l with
  | nil =>
    intro b r h
    exact Or.inl ⟨h.symm, by simp⟩
  | cons p ps ih =>
    intro b r h
    simp only [List.foldl_cons] at h
    by_cases hbp : key p < key b
    · rw [if_pos hbp] at h
      rcases ih p r h with ⟨hr, hall⟩ | ⟨l1, l2, hsplit, hlt, hpre, hsuf⟩
      · subst hr
        exact Or.inr ⟨[], ps, by simp, hbp, by simp, hall⟩
      · refine Or.inr ⟨p :: l1, l2, by rw [hsplit]; rfl,
          lt_trans hlt hbp, ?_, hsuf⟩
        intro q hq
        rcases List.mem_cons.1 hq with rfl | hq2
        · exact hlt
        · exact hpre q hq2
    · rw [if_neg hbp] at h
      rcases ih b r h with ⟨hr, hall⟩ | ⟨l1, l2, hsplit, hlt, hpre, hsuf⟩
      · refine Or.inl ⟨hr, ?_⟩
        intro q hq
        rcases List.mem_cons.1 hq with rfl | hq2
        · exact not_lt.1 hbp
        · exact hall q hq2
      · refine Or.inr ⟨p :: l1, l2, by rw [hsplit]; rfl, hlt, ?_, hsuf⟩
        intro q hq
        rcases List.mem_cons.1 hq with rfl | hq2
        · exact lt_of_lt_of_le hlt (not_lt.1 hbp)
        · exact hpre q hq2

lemma best_isFirstMax (p0 : Position) (rest : List Position)
    (hfin : ∀ p ∈ p0 :: rest, finiteNonzeroDCP p = true) :
    IsFirstMaxBy dcpKey (p0 :: rest) ((p0 :: rest).foldl bestStep p0) := by
  have hfin0 : finiteNonzeroDCP p0 = true := hfin p0 (List.mem_cons_self _ _)
  have hbfold : (p0 :: rest).foldl bestStep p0 =
      rest.foldl (fun x p => if dcpKey x < dcpKey p then p else x) p0 := by
    rw [foldl_bestStep_eq hfin0 hfin]
    simp only [List.foldl_cons, if_neg (lt_irrefl (dcpKey p0))]
  rw [hbfold]
  set r := rest.foldl (fun x p => if dcpKey x < dcpKey p then p else x) p0
    with hrdef
  rcases foldl_max_spec dcpKey rest p0 r hrdef.symm with ⟨hr, hall⟩ |
    ⟨l1, l2, hsplit, hlt, hpre, hsuf⟩
  · rw [hr]
    refine ⟨[], rest, by simp, by simp, ?_⟩
    intro q hq
    rcases List.mem_cons.1 hq with rfl | hq2
    · exact le_refl _
    · exact hall q hq2
  · refine ⟨p0 :: l1, l2, by rw [hsplit]; rfl, ?_, ?_⟩
    · intro q hq
      rcases List.mem_cons.1 hq with rfl | hq2
      · exact hlt
      · exact hpre q hq2
    · intro q hq
      rcases List.mem_cons.1 hq with rfl | hq2
      · exact le_of_lt hlt
      · rw [hsplit] at hq2
        rcases List.mem_append.1 hq2 with h1 | h1
        · exact le_of_lt (hpre q h1)
        · rcases List.mem_cons.1 h1 with rfl | h2
          · exact le_refl _
          · exact hsuf q h2

lemma worst_isFirstMin (p0 : Position) (rest : List Position)
    (hfin : ∀ p ∈ p0 :: rest, finiteNonzeroDCP p = true) :
    IsFirstMinBy dcpKey (p0 :: rest) ((p0 :: rest).foldl worstStep p0) := by
  have hfin0 : finiteNonzeroDCP p0 = true := hfin p0 (List.mem_cons_self _ _)
  have hwfold : (p0 :: rest).foldl worstStep p0 =
      rest.foldl (fun x p => if dcpKey p < dcpKey x then p else x) p0 := by
    rw [foldl_worstStep_eq hfin0 hfin]
    simp only [List.foldl_cons, if_neg (lt_irrefl (dcpKey p0))]
  rw [hwfold]
  set r := rest.foldl (fun x p => if dcpKey p < dcpKey x then p else x) p0
    with hrdef
  rcases foldl_min_spec dcpKey rest p0 r hrdef.symm with ⟨hr, hall⟩ |
    ⟨l1, l2, hsplit, hlt, hpre, hsuf⟩
  · rw [hr]
    refine ⟨[], rest, by simp, by simp, ?_⟩
    intro q hq
    rcases List.mem_cons.1 hq with rfl | hq2
    · exact le_refl _
    · exact hall q hq2
  · refine ⟨p0 :: l1, l2, by rw [hsplit]; rfl, ?_, ?_⟩
    · intro q hq
      rcases List.mem_cons.1 hq with rfl | hq2
      · exact hlt
      · exact hpre q hq2
    · intro q hq
      rcases List.mem_cons.1 hq with rfl | hq2
      · exact le_of_lt hlt
      · rw [hsplit] at hq2
        rcases List.mem_append.1 hq2 with h1 | h1
        · exact le_of_lt (hpre q h1)
        · rcases List.mem_cons.1 h1 with rfl | h2
          · exact le_refl _
          · exact hsuf q h2

lemma isFirstMaxBy_mem {key : Position → ℚ} {l : List Position} {r : Position}
    (h : IsFirstMaxBy key l r) : r ∈ l := by
  obtain ⟨l1, l2, hsplit, -, -⟩ := h
  rw [hsplit]
  exact List.mem_append.2 (Or.inr (List.mem_cons_self _ _))

lemma isFirstMinBy_mem {key : Position → ℚ} {l : List Position} {r : Position}
    (h : IsFirstMinBy key l r) : r ∈ l := by
  obtain ⟨l1, l2, hsplit, -, -⟩ := h
  rw [hsplit]
  exact List.mem_append.2 (Or.inr (List.mem_cons_self _ _))

/-- C6 (amended): provided every position's `dailyChangePercent` is a finite
NONZERO number (and every uppercased symbol is nonempty), `bestPerformer` is
the uppercased symbol of the first position attaining the maximum
`dailyChangePercent` and `worstPerformer` that of the first position
attaining the minimum.  The nonzero proviso is forced by the code: the
reduce's `(best?.dailyChangePercent || -Infinity)` fallback treats an
accumulator percent of 0 as missing, so after reaching an accumulator with
percent 0 a later position wins regardless of its value — see the
counterexample, where the best performer is not even a maximizer. -/
theorem performer_first_occurrence_amended :
    ∀ (p0 : Position) (rest : List Position),
      (∀ p ∈ p0 :: rest, finiteNonzeroDCP p = true) →
      (∀ p ∈ p0 :: rest, jsToUpperCase p.symbol ≠ "") →
      ∃ b w, bestPerformerPos (p0 :: rest) = some b ∧
        worstPerformerPos (p0 :: rest) = some w ∧
        IsFirstMaxBy dcpKey (p0 :: rest) b ∧
        IsFirstMinBy dcpKey (p0 :: rest) w ∧
        (calculateMetrics (p0 :: rest)).bestPerformer = jsToUpperCase b.symbol ∧
        (calculateMetrics (p0 :: rest)).worstPerformer = jsToUpperCase w.symbol := by
  intro p0 rest hfin hsym
  have hbmax := best_isFirstMax p0 rest hfin
  have hwmin := worst_isFirstMin p0 rest hfin
  refine ⟨(p0 :: rest).foldl bestStep p0, (p0 :: rest).foldl worstStep p0,
    rfl, rfl, hbmax, hwmin, ?_, ?_⟩
  · show symbolOrNA (bestPerformerPos (p0 :: rest)) =
      jsToUpperCase ((p0 :: rest).foldl bestStep p0).symbol
    show (if jsToUpperCase ((p0 :: rest).foldl bestStep p0).symbol = "" then "N/A"
      else jsToUpperCase ((p0 :: rest).foldl bestStep p0).symbol) =
      jsToUpperCase ((p0 :: rest).foldl bestStep p0).symbol
    exact if_neg (hsym _ (isFirstMaxBy_mem hbmax))
  · show symbolOrNA (worstPerformerPos (p0 :: rest)) =
      jsToUpperCase ((p0 :: rest).foldl worstStep p0).symbol
    show (if jsToUpperCase ((p0 :: rest).foldl worstStep p0).symbol = "" then "N/A"
      else jsToUpperCase ((p0 :: rest).foldl worstStep p0).symbol) =
      jsToUpperCase ((p0 :: rest).foldl worstStep p0).symbol
    exact if_neg (hsym _ (isFirstMinBy_mem hwmin))

/-- C6 witness: the amended law evaluated on two positions with finite
nonzero percents 5 and -3. -/
theorem performer_first_occurrence_amended_witness :
    ∃ b w, bestPerformerPos [C6posX, C6posY] = some b ∧
      worstPerformerPos [C6posX, C6posY] = some w ∧
      IsFirstMaxBy dcpKey [C6posX, C6posY] b ∧
      IsFirstMinBy dcpKey [C6posX, C6posY] w ∧
      (calculateMetrics [C6posX, C6posY]).bestPerformer = jsToUpperCase b.symbol ∧
      (calculateMetrics [C6posX, C6posY]).worstPerformer = jsToUpperCase w.symbol :=
  performer_first_occurrence_amended C6posX [C6posY] (by decide) (by decide)

/-- C6 counterexample: with percents 0 (position "a") and -1 (position "b"),
the first — and only — maximizer is "a", but `bestPerformer` is `"B"`: the
`|| -Infinity` fallback discards the accumulator's 0 percent, so the claim's
first-occurrence law fails (the reported best performer is not even a
maximizer). -/
theorem bestPerformer_zero_fallback_bug :
    (calculateMetrics [C6posA, C6posB]).bestPerformer = "B" ∧
    IsFirstMaxBy dcpKey [C6posA, C6posB] C6posA ∧
    jsToUpperCase C6posA.symbol = "A" ∧ ("A" : String) ≠ "B" := by
  refine ⟨by decide, ⟨[], [C6posB], rfl, by simp, by decide⟩, by decide,
    by decide⟩

lemma comparison_swap (k : SortKey) (a b : VPosition) :
    comparison k b a = -(comparison k a b) := by
  cases k with
  | symbol =>
    rcases lt_trichotomy a.symbol b.symbol with h | h | h
    · rw [show comparison SortKey.symbol a b = -1 from if_pos h]
      unfold comparison
      rw [if_neg (asymm h), if_pos h]
      norm_num
    · unfold comparison
      rw [h]
      simp [lt_irrefl]
    · rw [show comparison SortKey.symbol b a = -1 from if_pos h]
      unfold comparison
      rw [if_neg (asymm h), if_pos h]
  | value => simp only [comparison]; ring
  | pnl => simp only [comparison]; ring

lemma jsCompare_swap (k : SortKey) (o : SortOrder) (a b : VPosition) :
    jsCompare k o b a = -(jsCompare k o a b) := by
  cases o <;> simp [jsCompare, comparison_swap k a b]

lemma jsCompare_toggle (k : SortKey) (o : SortOrder) (a b : VPosition) :
    jsCompare k (toggleOrder o) a b = -(jsCompare k o a b) := by
  cases o <;> simp [jsCompare, toggleOrder]

lemma jsCompare_eq_zero_iff (k : SortKey) (o : SortOrder) (a b : VPosition) :
    jsCompare k o a b = 0 ↔ comparison k a b = 0 := by
  cases o <;> simp [jsCompare, neg_eq_zero]

lemma comparison_symbol_le {a b : VPosition} :
    comparison .symbol a b ≤ 0 ↔ a.symbol ≤ b.symbol := by
  unfold comparison
  split_ifs with h1 h2
  · constructor
    · intro _; exact le_of_lt h1
    · intro _; norm_num
  · constructor
    · intro h; norm_num at h
    · intro h; exact absurd h (not_le.2 h2)
  · constructor
    · intro _; exact not_lt.1 h2
    · intro _; exact le_refl 0

lemma comparison_trans (k : SortKey) {a b c : VPosition}
    (h1 : comparison k a b ≤ 0) (h2 : comparison k b c ≤ 0) :
    comparison k a c ≤ 0 := by
  cases k with
  | symbol =>
    rw [comparison_symbol_le] at h1 h2 ⊢
    exact le_trans h1 h2
  | value =>
    simp only [comparison] at h1 h2 ⊢
    linarith
  | pnl =>
    simp only [comparison] at h1 h2 ⊢
    linarith

lemma sortRel_total (k : SortKey) (o : SortOrder) :
    ∀ a b : VPosition, sortRel k o a b ∨ sortRel k o b a := by
  intro a b
  unfold sortRel
  rcases le_total (jsCompare k o a b) 0 with h | h
  · exact Or.inl h
  · right
    rw [jsCompare_swap]
    linarith

lemma sortRel_trans (k : SortKey) (o : SortOrder) :
    ∀ a b c : VPosition, sortRel k o a b → sortRel k o b c → sortRel k o a c := by
  intro a b c h1 h2
  cases o with
  | asc => exact comparison_trans k h1 h2
  | desc =>
    simp only [sortRel, jsCompare] at h1 h2 ⊢
    have h1a : comparison k b a ≤ 0 := by rw [comparison_swap]; linarith
    have h2a : comparison k c b ≤ 0 := by rw [comparison_swap]; linarith
    have h3 := comparison_trans k h2a h1a
    rw [comparison_swap] at h3
    linarith

lemma sortRel_toggle_flip (k : SortKey) (o : SortOrder) (a b : VPosition) :
    sortRel k (toggleOrder o) a b ↔ sortRel k o b a := by
  unfold sortRel
  rw [jsCompare_toggle, jsCompare_swap k o a b]

lemma sorted_perm_unique {r : VPosition → VPosition → Prop} :
    ∀ {l1 l2 : List VPosition}, List.Perm l1 l2 → l1.Pairwise r →
      l2.Pairwise r → (∀ a ∈ l1, ∀ b ∈ l1, r a b → r b a → a = b) → l1 = l2 := by
  intro l1
  induction l1 with
  | nil =>
    intro l2 hp _ _ _
    exact hp.nil_eq
  | cons a t ih =>
    intro l2 hp hs1 hs2 hanti
    have ha2 : a ∈ l2 := hp.mem_iff.mp (List.mem_cons_self a t)
    cases l2 with
    | nil => simp at ha2
    | cons b t2 =>
      by_cases hab : a = b
      · subst hab
        have ht : List.Perm t t2 := hp.cons_inv
        have htail := ih ht hs1.tail hs2.tail
          (fun x hx y hy => hanti x (List.mem_cons_of_mem _ hx) y
            (List.mem_cons_of_mem _ hy))
        rw [htail]
      · have hb1 : b ∈ a :: t := hp.symm.mem_iff.mp (List.mem_cons_self b t2)
        have hbt : b ∈ t := by
          rcases List.mem_cons.1 hb1 with h | h
          · exact absurd h.symm hab
          · exact h
        have hat2 : a ∈ t2 := by
          rcases List.mem_cons.1 ha2 with h | h
          · exact absurd h hab
          · exact h
        have hrab : r a b := (List.pairwise_cons.1 hs1).1 b hbt
        have hrba : r b a := (List.pairwise_cons.1 hs2).1 a hat2
        exact absurd
          (hanti a (List.mem_cons_self a t) b (List.mem_cons_of_mem _ hbt)
            hrab hrba) hab

/-- C8 (amended): sorting is idempotent for every key and direction; toggling
the direction produces exactly the reverse PROVIDED the active sort keys are
pairwise distinct (the comparator is nonzero on every pair of listed
positions).  With a tie the stable sort keeps the original relative order in
both directions, so the toggled order is not the exact reverse — see the
counterexample. -/
theorem sort_idempotent_toggle_reverses_amended :
    (∀ (k : SortKey) (o : SortOrder) (l : List VPosition),
        sortPositions k o (sortPositions k o l) = sortPositions k o l) ∧
    (∀ (k : SortKey) (o : SortOrder) (l : List VPosition),
        l.Pairwise (fun a b => comparison k a b ≠ 0) →
        sortPositions k (toggleOrder o) l = (sortPositions k o l).reverse) := by
  constructor
  · intro k o l
    haveI : IsTotal VPosition (sortRel k o) := ⟨sortRel_total k o⟩
    haveI : IsTrans VPosition (sortRel k o) := ⟨sortRel_trans k o⟩
    exact List.Sorted.insertionSort_eq
      (List.sorted_insertionSort (sortRel k o) l)
  · intro k o l hdist
    haveI : IsTotal VPosition (sortRel k (toggleOrder o)) :=
      ⟨sortRel_total k (toggleOrder o)⟩
    haveI : IsTrans VPosition (sortRel k (toggleOrder o)) :=
      ⟨sortRel_trans k (toggleOrder o)⟩
    haveI : IsTotal VPosition (sortRel k o) := ⟨sortRel_total k o⟩
    haveI : IsTrans VPosition (sortRel k o) := ⟨sortRel_trans k o⟩
    have hperm : List.Perm (sortPositions k (toggleOrder o) l)
        ((sortPositions k o l).reverse) :=
      (List.perm_insertionSort _ l).trans
        (((sortPositions k o l).reverse_perm.trans
          (List.perm_insertionSort _ l)).symm)
    have hs1 : (sortPositions k (toggleOrder o) l).Pairwise
        (sortRel k (toggleOrder o)) :=
      List.sorted_insertionSort (sortRel k (toggleOrder o)) l
    have hs2 : (sortPositions k o l).reverse.Pairwise
        (sortRel k (toggleOrder o)) := by
      rw [List.pairwise_reverse]
      exact List.Pairwise.imp
        (fun hab => (sortRel_toggle_flip k o _ _).mpr hab)
        (List.sorted_insertionSort (sortRel k o) l)
    have hsym : Symmetric (fun a b : VPosition => comparison k a b ≠ 0) := by
      intro x y h
      rw [comparison_swap]
      exact neg_ne_zero.2 h
    have hne : ∀ x ∈ l, ∀ y ∈ l, x ≠ y → comparison k x y ≠ 0 :=
      fun x hx y hy hxy => List.Pairwise.forall hsym hdist hx hy hxy
    refine sorted_perm_unique hperm hs1 hs2 ?_
    intro a ha b hb h1 h2
    have hal : a ∈ l :=
      (List.perm_insertionSort (sortRel k (toggleOrder o)) l).mem_iff.mp ha
    have hbl : b ∈ l :=
      (List.perm_insertionSort (sortRel k (toggleOrder o)) l).mem_iff.mp hb
    by_contra hab
    have hz : jsCompare k (toggleOrder o) a b = 0 := by
      have h2a : 0 ≤ jsCompare k (toggleOrder o) a b := by
        have := jsCompare_swap k (toggleOrder o) a b
        unfold sortRel at h2
        linarith
    -- h1 : jsCompare ≤ 0
      exact le_antisymm h1 h2a
    exact hne a hal b hbl hab ((jsCompare_eq_zero_iff _ _ _ _).1 hz)

/-- C8 witness: idempotence and exact reversal evaluated on the tie-free
two-element list with values 5 and 7. -/
theorem sort_idempotent_toggle_reverses_amended_witness :
    sortPositions .value .asc
        (sortPositions .value .asc [C8posA, C8posC]) =
      sortPositions .value .asc [C8posA, C8posC] ∧
    sortPositions .value (toggleOrder .asc) [C8posA, C8posC] =
      (sortPositions .value .asc [C8posA, C8posC]).reverse :=
  ⟨sort_idempotent_toggle_reverses_amended.1 .value .asc [C8posA, C8posC],
    sort_idempotent_toggle_reverses_amended.2 .value .asc [C8posA, C8posC]
      (by norm_num [List.pairwise_cons, comparison, C8posA, C8posC, mkVPos])⟩

/-- C8 counterexample: two positions tied on `totalValue` sort identically in
both directions (stability), so the toggled order is NOT the exact reverse of
the previous order. -/
theorem sort_toggle_not_exact_reverse :
    sortPositions .value .desc [C8posA, C8posB] ≠
      (sortPositions .value .asc [C8posA, C8posB]).reverse := by
  have hasc : sortPositions .value .asc [C8posA, C8posB] = [C8posA, C8posB] := by
    norm_num [sortPositions, List.insertionSort, List.orderedInsert, sortRel,
      jsCompare, comparison, C8posA, C8posB, mkVPos]
  have hdesc : sortPositions .value .desc [C8posA, C8posB] = [C8posA, C8posB] := by
    norm_num [sortPositions, List.insertionSort, List.orderedInsert, sortRel,
      jsCompare, comparison, C8posA, C8posB, mkVPos]
  rw [hasc, hdesc]
  decide
